import Mathlib

/-!
Verification development for the RBPak package system
(`RBPak/src/pak.cpp`, `RBPak/include/pak.h`).

Shallow embedding conventions:
* bytes are `Nat`, reduced `% 256` exactly where the C++ `uint8_t` casts sit;
* 32-bit arithmetic is `Nat` with explicit `% 2^32` where the source casts
  or where unsigned overflow matters;
* C++ strings and `ByteArray` are both `List Nat` (byte strings);
* file streams are in-memory byte lists; a read stream carries a position
  and a `bad` flag mirroring `std::ifstream` failure state;
* the DEFLATE back-end (zlib `compress2` / `uncompress`) is an external
  library and is modelled as an abstract `Codec` parameter; every theorem
  that needs its behaviour carries an explicit hypothesis about it, and
  witnesses instantiate it with a concrete codec.
-/

namespace RBPak

/-- `2^32`, the modulus of the C++ `uint32_t` casts. -/
def U32 : Nat := 4294967296

/-- Reduce to 32 bits, as the C++ `uint32_t` arithmetic does. -/
def u32 (n : Nat) : Nat := n % U32

/-- `enum class PackageError` from `pak.h`. -/
inductive PackageError where
  | noError
  | fileNotFound
  | invalidSignature
  | corruptedData
  | decryptionFailed
  | compressionFailed
  | decompressionFailed
  | checksumMismatch
  | ioError
  | invalidParameter
  | outOfMemory
  | accessDenied
deriving DecidableEq, Repr

/-- `enum class CompressionLevel` from `pak.h` (values 0, 1, 6, 9). -/
inductive CompressionLevel where
  | levelNone
  | fast
  | balanced
  | best
deriving DecidableEq, Repr

/-- `enum class EncryptionMethod` from `pak.h`. -/
inductive EncryptionMethod where
  | methodNone
  | xorMethod
  | aes
deriving DecidableEq, Repr

/-- A failed `PackageResult`: error kind plus human message. -/
abbrev PakFail := PackageError × String

/-- The error kind carried by a pipeline result (`noError` on success),
mirroring `PackageResult::error`. -/
def pipelineError {α : Type} : Except PakFail α → PackageError
  | .ok _ => PackageError.noError
  | .error (k, _) => k

/-- `struct PackageConfig` from `pak.h`. -/
structure PackageConfig where
  compression : CompressionLevel := CompressionLevel.balanced
  encryption : EncryptionMethod := EncryptionMethod.methodNone
  encryption_key : List Nat := []
  obfuscate_filenames : Bool := false
  verify_checksums : Bool := true
  lazy_load : Bool := true
  max_cache_size : Nat := 100 * 1024 * 1024
deriving DecidableEq, Repr

/-- `PackageConfig::IsValid` from `pak.h`: an encryption method other than
`None` together with an empty key is invalid. -/
def PackageConfig.IsValid (cfg : PackageConfig) : Bool :=
  !(cfg.encryption != EncryptionMethod.methodNone && cfg.encryption_key.isEmpty)

/-- `struct Entry` from `pak.cpp` (with its default member initialisers). -/
structure Entry where
  name : List Nat := []
  stored_name : List Nat := []
  offset : Nat := 0
  compressed_size : Nat := 0
  uncompressed_size : Nat := 0
  crc32 : Nat := 0
  is_encrypted : Bool := false
  is_loaded : Bool := false
  data : List Nat := []
deriving DecidableEq, Repr

/-! ## Little-endian primitives (`IOHelper`)

The C++ `IOHelper::Write`/`Read` move raw little-endian `uint16_t`/
`uint32_t` values; we spell out the byte decomposition. -/

/-- Little-endian bytes of a `uint16_t`. -/
def le16 (v : Nat) : List Nat := [v % 256, v / 256 % 256]

/-- Little-endian bytes of a `uint32_t`. -/
def le32 (v : Nat) : List Nat :=
  [v % 256, v / 256 % 256, v / 65536 % 256, v / 16777216 % 256]

/-- Value of 2 little-endian bytes. -/
def le16val (bs : List Nat) : Nat :=
  bs.getD 0 0 % 256 + 256 * (bs.getD 1 0 % 256)

/-- Value of 4 little-endian bytes. -/
def le32val (bs : List Nat) : Nat :=
  bs.getD 0 0 % 256 + 256 * (bs.getD 1 0 % 256) + 65536 * (bs.getD 2 0 % 256)
    + 16777216 * (bs.getD 3 0 % 256)

/-- `IOHelper::WriteString`: 16-bit length prefix then the bytes.  When the
string is longer than `UINT16_MAX` the helper writes nothing and returns
`false`; `Save` ignores that return value, so the modelled output is `[]`. -/
def writeString (s : List Nat) : List Nat :=
  if s.length > 65535 then [] else le16 s.length ++ s

/-! ## Cipher (`class Cipher`) -/

/-- FNV-1a 32-bit hash over a byte string (offset basis 2166136261,
prime 16777619), as in `Cipher::DeriveKey`. -/
def fnv1a (bytes : List Nat) : Nat :=
  bytes.foldl (fun h c => u32 ((h ^^^ c % 256) * 16777619)) 2166136261

/-- ASCII bytes of the decimal representation of `n` (`std::to_string`). -/
def decimalBytes (n : Nat) : List Nat :=
  (Nat.toDigits 10 n).map Char.toNat

/-- The fixed salt string `"RBPak_Salt_2025"` appended to the user key. -/
def cipherSalt : List Nat := "RBPak_Salt_2025".toList.map Char.toNat

/-- The loop of `Cipher::DeriveKey`: each round appends the low byte of the
FNV-1a hash of the current seed to the key and the decimal digits of the
hash to the seed. -/
def deriveKeyLoop : Nat → List Nat → List Nat → List Nat
  | 0, _, acc => acc
  | n + 1, seed, acc =>
    let h := fnv1a seed
    deriveKeyLoop n (seed ++ decimalBytes h) (acc ++ [h % 256])

/-- `Cipher::DeriveKey`: 32 rounds starting from `key ++ salt`. -/
def deriveKey (key : List Nat) : List Nat :=
  deriveKeyLoop 32 (key ++ cipherSalt) []

/-- The key schedule installed by the `Cipher` constructor: the fixed 4-byte
fallback for an empty user key, otherwise the derived 32-byte key. -/
def cipherKey (userKey : List Nat) : List Nat :=
  if userKey = [] then [0x52, 0x42, 0x50, 0x6B] else deriveKey userKey

/-- The XOR keystream applied from index `i` on (`data[i] ^= key[i % len]`). -/
def xorKeystream (key : List Nat) : Nat → List Nat → List Nat
  | _, [] => []
  | i, b :: bs => (b ^^^ key.getD (i % key.length) 0) :: xorKeystream key (i + 1) bs

/-- `Cipher::Encrypt`: in-place XOR with the key schedule; a no-op when the
key is empty. -/
def cipherEncrypt (key : List Nat) (data : List Nat) : List Nat :=
  if key = [] then data else xorKeystream key 0 data

/-- `Cipher::Decrypt` just calls `Encrypt`. -/
def cipherDecrypt (key : List Nat) (data : List Nat) : List Nat :=
  cipherEncrypt key data

/-! ## Checksum (`pak_utils::CalculateCRC32`, zlib `crc32`)

zlib's `crc32(0, buf, len)` is the standard CRC-32: polynomial 0xEDB88320,
initial value 0xFFFFFFFF, final XOR 0xFFFFFFFF. -/

/-- One bit step of the reflected CRC-32. -/
def crcBit (c : Nat) : Nat :=
  if c % 2 = 1 then (c / 2) ^^^ 0xEDB88320 else c / 2

/-- Fold one byte into the CRC accumulator (8 bit steps). -/
def crcByte (c b : Nat) : Nat :=
  crcBit (crcBit (crcBit (crcBit (crcBit (crcBit (crcBit (crcBit (c ^^^ b % 256))))))))

/-- `pak_utils::CalculateCRC32` (zlib-compatible CRC-32 of a byte string). -/
def CalculateCRC32 (data : List Nat) : Nat :=
  (data.foldl crcByte 0xFFFFFFFF) ^^^ 0xFFFFFFFF

/-- `pak_utils::SecureCompare`: XOR-then-compare-to-zero equality. -/
def SecureCompare (a b : Nat) : Bool := (a ^^^ b) = 0

/-! ## Hasher (`hash::MurmurHash3`, `hash::Obfuscate`) -/

/-- 32-bit left rotation. -/
def rotl32 (x r : Nat) : Nat :=
  u32 (x * 2 ^ r) ^^^ (u32 x / 2 ^ (32 - r))

/-- Body loop of MurmurHash3: consume 4-byte little-endian blocks, return
the updated hash state and the tail (fewer than 4 bytes). -/
def mm3Blocks (h1 : Nat) : List Nat → Nat × List Nat
  | b0 :: b1 :: b2 :: b3 :: rest =>
    let k1 := le32val [b0, b1, b2, b3]
    let k1 := u32 (k1 * 0xcc9e2d51)
    let k1 := rotl32 k1 15
    let k1 := u32 (k1 * 0x1b873593)
    let h1 := h1 ^^^ k1
    let h1 := rotl32 h1 13
    let h1 := u32 (h1 * 5 + 0xe6546b64)
    mm3Blocks h1 rest
  | rest => (h1, rest)

/-- Tail handling of MurmurHash3 (the `switch (len & 3)` with fallthrough). -/
def mm3Tail (h1 : Nat) : List Nat → Nat
  | [] => h1
  | tail =>
    let k1 :=
      match tail with
      | [t0] => t0 % 256
      | [t0, t1] => (t0 % 256) ^^^ u32 ((t1 % 256) * 256)
      | [t0, t1, t2] => ((t0 % 256) ^^^ u32 ((t1 % 256) * 256)) ^^^ u32 ((t2 % 256) * 65536)
      | _ => 0
    let k1 := u32 (k1 * 0xcc9e2d51)
    let k1 := rotl32 k1 15
    let k1 := u32 (k1 * 0x1b873593)
    h1 ^^^ k1

/-- MurmurHash3 finaliser (`fmix`). -/
def mm3Final (len h : Nat) : Nat :=
  let h := h ^^^ u32 len
  let h := h ^^^ (h / 65536)
  let h := u32 (h * 0x85ebca6b)
  let h := h ^^^ (h / 8192)
  let h := u32 (h * 0xc2b2ae35)
  h ^^^ (h / 65536)

/-- `hash::MurmurHash3` with the library's fixed seed 0x52425061. -/
def MurmurHash3 (data : List Nat) : Nat :=
  if data = [] then 0x52425061
  else
    let (h1, tail) := mm3Blocks 0x52425061 data
    mm3Final data.length (mm3Tail h1 tail)

/-- `hash::Obfuscate`: `"rbp_" + std::to_string(hash) + ".dat"`. -/
def Obfuscate (name : List Nat) : List Nat :=
  ("rbp_".toList.map Char.toNat) ++ decimalBytes (MurmurHash3 name)
    ++ (".dat".toList.map Char.toNat)

/-! ## LRU cache (`class LRUCache`)

Keys and values are byte strings.  `current` mirrors `m_current_size`
exactly as the source maintains it: it is increased on insertion and reset
by `Clear`, and — faithfully to the source — it is **not** decreased when
records are evicted. -/

/-- Cache state: capacity, accounted size, and the records MRU-first
(the `m_map` of the source is the index into this list and carries no
extra information). -/
structure LRU where
  capacity : Nat
  current : Nat := 0
  items : List (List Nat × List Nat) := []
deriving DecidableEq, Repr

/-- Remove the first record with the given key (list-node erase). -/
def removeKey : List (List Nat × List Nat) → List Nat → List (List Nat × List Nat)
  | [], _ => []
  | (k', v) :: t, k => if k' = k then t else (k', v) :: removeKey t k

/-- Look up a key in the record list. -/
def lookupKey : List (List Nat × List Nat) → List Nat → Option (List Nat)
  | [], _ => Option.none
  | (k', v) :: t, k => if k' = k then some v else lookupKey t k

/-- `LRUCache::Get`: on a hit, splice the record to the MRU position and
return its value. -/
def LRU.get (c : LRU) (k : List Nat) : Option (List Nat) × LRU :=
  match lookupKey c.items k with
  | Option.none => (Option.none, c)
  | some v => (some v, { c with items := (k, v) :: removeKey c.items k })

/-- The eviction loop of `LRUCache::Put`, one `pop_back()` per fuel unit:
`while (current + size > capacity && !items.empty()) pop_back()`.  The
loop condition never changes because the source forgets to subtract the
evicted weight, so a triggered loop runs until the list is empty. -/
def evictLoopAux (cap cur w : Nat) : Nat → List (List Nat × List Nat) →
    List (List Nat × List Nat)
  | 0, items => items
  | fuel + 1, items =>
    if items.isEmpty then items
    else if cap < cur + w then evictLoopAux cap cur w fuel items.dropLast
    else items

/-- The eviction loop, with enough fuel for every possible iteration (each
iteration removes one record, so `items.length` rounds always suffice). -/
def evictLoop (cap cur w : Nat) (items : List (List Nat × List Nat)) :
    List (List Nat × List Nat) :=
  evictLoopAux cap cur w items.length items

/-- `LRUCache::Put`: erase an existing record for the key, run the eviction
loop, and insert at MRU when the weight fits the capacity.  `current` is
only ever increased, exactly as in the source. -/
def LRU.put (c : LRU) (k v : List Nat) (w : Nat) : LRU :=
  let items1 := removeKey c.items k
  let items2 := evictLoop c.capacity c.current w items1
  if w ≤ c.capacity then
    { c with items := (k, v) :: items2, current := c.current + w }
  else
    { c with items := items2 }

/-- `LRUCache::Clear`. -/
def LRU.clear (c : LRU) : LRU := { c with items := [], current := 0 }

/-- `LRUCache::Size`: returns `m_current_size`. -/
def LRU.size (c : LRU) : Nat := c.current

/-! ## Codec (`namespace compression`, zlib back-end)

`compress2`/`uncompress` are external zlib routines; they are modelled
abstractly.  `decomp` receives the input bytes and the expected
(uncompressed) size, exactly the data the source hands to `uncompress`. -/

/-- Abstract DEFLATE back-end: `comp` models `compress2` (`Option.none` =
a non-`Z_OK` return) and `decomp` models `uncompress` into a buffer of the
given expected size. -/
structure Codec where
  comp : List Nat → Option (List Nat)
  decomp : List Nat → Nat → Option (List Nat)

/-- A back-end that stores bytes verbatim; used to instantiate theorems at
concrete inputs. -/
def idCodec : Codec where
  comp := fun x => some x
  decomp := fun x _ => some x

/-- A back-end whose `uncompress` always fails (as zlib does on data that
is not a DEFLATE stream). -/
def failCodec : Codec where
  comp := fun x => some x
  decomp := fun _ _ => Option.none

/-- 1 GiB, the hostile-header bound used by `Decompress`. -/
def GiB : Nat := 1024 * 1024 * 1024

/-- `compression::Compress`: empty input is rejected, level `None` stores
verbatim, otherwise the back-end runs. -/
def Compress (be : Codec) (input : List Nat) (level : CompressionLevel) :
    Except PakFail (List Nat) :=
  if input = [] then .error (PackageError.invalidParameter, "Empty input")
  else if level = CompressionLevel.levelNone then .ok input
  else
    match be.comp input with
    | Option.none => .error (PackageError.compressionFailed, "zlib error")
    | some out => .ok out

/-- `compression::Decompress`: empty input and an expected size of 0 or
more than 1 GiB are rejected with `InvalidParameter`; then the back-end
runs.  Note that no compression level is consulted: the inflate back-end
runs even on payloads that were stored verbatim. -/
def Decompress (be : Codec) (input : List Nat) (expected : Nat) :
    Except PakFail (List Nat) :=
  if input = [] then .error (PackageError.invalidParameter, "Empty compressed data")
  else if expected = 0 ∨ expected > GiB then .error (PackageError.invalidParameter, "Invalid size")
  else
    match be.decomp input expected with
    | Option.none => .error (PackageError.decompressionFailed, "zlib error")
    | some out => .ok out

/-! ## Read streams (`std::ifstream` positions and failure state) -/

/-- A read cursor over an in-memory file: position plus the stream failure
flag (`eofbit`/`failbit`); once bad, every further read fails. -/
structure RStream where
  pos : Nat
  bad : Bool := false
deriving DecidableEq, Repr

/-- Read exactly `n` bytes; a short read fails the stream and (as C++
`istream::read`) delivers nothing usable. -/
def readN (f : List Nat) (n : Nat) (s : RStream) : Option (List Nat) × RStream :=
  if s.bad then (Option.none, s)
  else
    let bytes := (f.drop s.pos).take n
    if bytes.length < n then (Option.none, { s with bad := true })
    else (some bytes, { s with pos := s.pos + n })

/-- `IOHelper::Read<uint32_t>`. -/
def readU32 (f : List Nat) (s : RStream) : Option Nat × RStream :=
  match readN f 4 s with
  | (Option.none, s') => (Option.none, s')
  | (some bs, s') => (some (le32val bs), s')

/-- `IOHelper::Read<uint16_t>`. -/
def readU16 (f : List Nat) (s : RStream) : Option Nat × RStream :=
  match readN f 2 s with
  | (Option.none, s') => (Option.none, s')
  | (some bs, s') => (some (le16val bs), s')

/-- `IOHelper::Read<uint8_t>`. -/
def readU8 (f : List Nat) (s : RStream) : Option Nat × RStream :=
  match readN f 1 s with
  | (Option.none, s') => (Option.none, s')
  | (some bs, s') => (some (bs.getD 0 0), s')

/-- `IOHelper::ReadString`: 16-bit length, rejected when above 8192 (the
stream is left good in that case, its position past the length field),
then the string bytes. -/
def readString (f : List Nat) (s : RStream) : Option (List Nat) × RStream :=
  match readU16 f s with
  | (Option.none, s1) => (Option.none, s1)
  | (some len, s1) =>
    if len > 8192 then (Option.none, s1)
    else readN f len s1

/-! ## Entry map (`std::unordered_map<std::string, std::unique_ptr<Entry>>`)

Modelled as an association list with unique keys; iteration order stands
for the map's unspecified order. -/

/-- Look up an entry by logical name. -/
def lookupEntry : List (List Nat × Entry) → List Nat → Option Entry
  | [], _ => Option.none
  | (k, e) :: t, n => if k = n then some e else lookupEntry t n

/-- `m_entries[name] = entry`: replace an existing binding or append. -/
def upsertEntry : List (List Nat × Entry) → List Nat → Entry → List (List Nat × Entry)
  | [], n, e => [(n, e)]
  | (k, e') :: t, n, e => if k = n then (n, e) :: t else (k, e') :: upsertEntry t n e

/-- `m_entries.erase(name)`: drop the binding, if any. -/
def eraseEntry : List (List Nat × Entry) → List Nat → List (List Nat × Entry)
  | [], _ => []
  | (k, e) :: t, n => if k = n then t else (k, e) :: eraseEntry t n

/-! ## Package engine state (`Package::Impl`) -/

/-- The container signature `0x6B506252` (`'RbPk'` little-endian). -/
def SIGNATURE : Nat := 0x6B506252

/-- The container version `0x00020000`. -/
def VERSION : Nat := 0x00020000

/-- The fields of `Package::Impl`.  The open `std::ifstream` is the bytes
of the loaded file; `last_error` mirrors `m_last_error`. -/
structure PackState where
  config : PackageConfig
  entries : List (List Nat × Entry) := []
  reader : Option (List Nat) := Option.none
  cipher : Option (List Nat) := Option.none
  cache : LRU
  last_error : PackageError := PackageError.noError
deriving DecidableEq, Repr

/-- The `Impl` constructor: a cipher is created only when encryption is
requested **and** the key is non-empty. -/
def initPackage (cfg : PackageConfig) : PackState where
  config := cfg
  cipher :=
    if cfg.encryption ≠ EncryptionMethod.methodNone ∧ cfg.encryption_key ≠ [] then
      some (cipherKey cfg.encryption_key)
    else Option.none
  cache := { capacity := cfg.max_cache_size }

/-- `Package::Impl::Add`: reject empty name or empty data, then build the
entry (CRC over the plaintext, `is_encrypted` from the live configuration)
and store it under the logical name, replacing any prior entry. -/
def addEntry (st : PackState) (name data : List Nat) : Except PakFail Unit × PackState :=
  if name = [] ∨ data = [] then
    (.error (PackageError.invalidParameter, "Invalid parameters"), st)
  else
    let e : Entry :=
      { name := name
        stored_name := if st.config.obfuscate_filenames then Obfuscate name else name
        data := data
        uncompressed_size := u32 data.length
        crc32 := CalculateCRC32 data
        is_encrypted := st.config.encryption ≠ EncryptionMethod.methodNone
        is_loaded := true }
    (.ok (), { st with entries := upsertEntry st.entries name e })

/-- `Package::Impl::Has`. -/
def hasEntry (st : PackState) (name : List Nat) : Bool :=
  (lookupEntry st.entries name).isSome

/-- `Package::Impl::Remove`: erase the entry, report whether one existed.
Nothing else — in particular not the cache — is touched. -/
def removeEntry (st : PackState) (name : List Nat) : Bool × PackState :=
  ((lookupEntry st.entries name).isSome, { st with entries := eraseEntry st.entries name })

/-- `Package::Impl::Clear`: drop the entries and close the reader; the
cache is left alone. -/
def clearPackage (st : PackState) : PackState :=
  { st with entries := [], reader := Option.none }

/-- `Package::Impl::LoadEntry`, the decode pipeline: read exactly
`compressed_size` bytes at `offset`, decompress to the declared
uncompressed size, decrypt in place when the entry is flagged encrypted
**and** a cipher is configured (otherwise the step is silently skipped),
then constant-time-compare the CRC when verification is on. -/
def loadEntry (be : Codec) (cfg : PackageConfig) (cipher : Option (List Nat))
    (reader : Option (List Nat)) (e : Entry) : Except PakFail (List Nat) :=
  match reader with
  | Option.none => .error (PackageError.ioError, "Package not open")
  | some f =>
    let compressed := (f.drop e.offset).take e.compressed_size
    if compressed.length < e.compressed_size then
      .error (PackageError.ioError, "Read failed")
    else
      match Decompress be compressed e.uncompressed_size with
      | .error fl => .error fl
      | .ok decompressed =>
        let decoded :=
          match cipher with
          | some key => if e.is_encrypted then cipherDecrypt key decompressed else decompressed
          | Option.none => decompressed
        if cfg.verify_checksums ∧ ¬SecureCompare (CalculateCRC32 decoded) e.crc32 then
          .error (PackageError.checksumMismatch, "CRC mismatch")
        else .ok decoded

/-- `Package::Impl::Get`: consult the cache first; on a miss look the entry
up, run the decode pipeline if it is not materialised, and in lazy-load
mode insert the bytes into the cache weighted by their length.  A pipeline
failure returns no value (and — faithfully to the source — does **not**
write `last_error`). -/
def getEntry (be : Codec) (st : PackState) (name : List Nat) :
    Option (List Nat) × PackState :=
  match st.cache.get name with
  | (some cached, cache1) => (some cached, { st with cache := cache1 })
  | (Option.none, cache1) =>
    match lookupEntry st.entries name with
    | Option.none => (Option.none, { st with cache := cache1 })
    | some e =>
      match
        (if e.is_loaded then .ok e.data
         else loadEntry be st.config st.cipher st.reader e : Except PakFail (List Nat)) with
      | .error _ => (Option.none, { st with cache := cache1 })
      | .ok bytes =>
        let e' := { e with data := bytes, is_loaded := true }
        let entries' := upsertEntry st.entries name e'
        let cache2 :=
          if st.config.lazy_load then cache1.put name e'.data e'.data.length else cache1
        (some e'.data, { st with entries := entries', cache := cache2 })

/-! ## Save (`Package::Impl::Save`)

The output `std::ofstream` is modelled as the final byte string of the
file; in-memory writes cannot fail, matching the source's unchecked
`IOHelper::Write` calls.  The header's directory-offset field is written
as a placeholder and backpatched after the directory; the model builds the
final patched bytes directly. -/

/-- The working copy `Save` hands to the compressor: encrypted in place
when the entry is flagged **and** a cipher exists (`entry->is_encrypted &&
m_cipher`), the plain data otherwise. -/
def processedData (cipher : Option (List Nat)) (enc : Bool) (data : List Nat) : List Nat :=
  match cipher with
  | some key => if enc then cipherEncrypt key data else data
  | Option.none => data

/-- The payload loop of `Save`: encrypt a working copy when the entry is
flagged and a cipher exists, compress, record the current file position
and compressed size (as `uint32_t`) into the entry, and append the
payload.  On a compression failure the loop aborts with that failure. -/
def savePayloads (be : Codec) (cipher : Option (List Nat)) (level : CompressionLevel) :
    Nat → List (List Nat × Entry) → Except PakFail (List Nat × List (List Nat × Entry))
  | _, [] => .ok ([], [])
  | pos, (k, e) :: rest =>
    let processed := processedData cipher e.is_encrypted e.data
    match Compress be processed level with
    | .error fl => .error fl
    | .ok compressed =>
      let e' := { e with offset := u32 pos, compressed_size := u32 compressed.length }
      match savePayloads be cipher level (pos + compressed.length) rest with
      | .error fl => .error fl
      | .ok (payloads, es) => .ok (compressed ++ payloads, (k, e') :: es)

/-- One central-directory record as written by `Save`. -/
def dirRecord (e : Entry) : List Nat :=
  writeString e.stored_name ++ le32 e.offset ++ le32 e.compressed_size
    ++ le32 e.uncompressed_size ++ le32 e.crc32 ++ [if e.is_encrypted then 1 else 0]

/-- The central directory for a processed entry list. -/
def dirBytes (es : List (List Nat × Entry)) : List Nat :=
  (es.map fun p => dirRecord p.2).flatten

/-- The header flags word built by `Save` (bit0 Compressed, bit1 Encrypted,
bit2 ObfuscatedNames, bit3 ChecksumVerified). -/
def flagBits (a b c d : Bool) : Nat :=
  (((if a then 1 else 0) ||| (if b then 2 else 0)) ||| (if c then 4 else 0))
    ||| (if d then 8 else 0)

/-- The flags `Save` derives from the live configuration. -/
def flagsOf (cfg : PackageConfig) : Nat :=
  flagBits (cfg.compression ≠ CompressionLevel.levelNone)
    (cfg.encryption ≠ EncryptionMethod.methodNone)
    cfg.obfuscate_filenames cfg.verify_checksums

/-- `Package::Impl::Save`: header, payload region, central directory, with
the directory offset backpatched into the header.  A compression failure
aborts and leaves the package state as it was (the source also leaves the
partially-written file behind; no claim observes the partially-updated
scratch offsets of earlier entries). -/
def savePackage (be : Codec) (st : PackState) :
    Except PakFail (List Nat) × PackState :=
  match savePayloads be st.cipher st.config.compression 20 st.entries with
  | .error fl => (.error fl, st)
  | .ok (payload, entries') =>
    let dirOff := u32 (20 + payload.length)
    let file :=
      le32 SIGNATURE ++ le32 VERSION ++ le32 (u32 st.entries.length)
        ++ le32 (flagsOf st.config) ++ le32 dirOff ++ payload ++ dirBytes entries'
    (.ok file, { st with entries := entries' })

/-! ## Load (`Package::Impl::Load`) -/

/-- One directory record as parsed by the `Load` loop.  Every read's
success flag is ignored, exactly as in the source; a failed read leaves
the corresponding `Entry` field at its default member initialiser. -/
def readDirRecord (f : List Nat) (s : RStream) : Entry × RStream :=
  let (nameOpt, s1) := readString f s
  let (offOpt, s2) := readU32 f s1
  let (csizeOpt, s3) := readU32 f s2
  let (usizeOpt, s4) := readU32 f s3
  let (crcOpt, s5) := readU32 f s4
  let (encOpt, s6) := readU8 f s5
  ({ name := nameOpt.getD []
     stored_name := nameOpt.getD []
     offset := offOpt.getD 0
     compressed_size := csizeOpt.getD 0
     uncompressed_size := usizeOpt.getD 0
     crc32 := crcOpt.getD 0
     is_encrypted := encOpt.getD 0 ≠ 0
     is_loaded := false
     data := [] }, s6)

/-- The directory loop of `Load`: `count` records, each registered under
its parsed name (`m_entries[entry->name] = entry`). -/
def loadDir (f : List Nat) : RStream → List (List Nat × Entry) → Nat → List (List Nat × Entry)
  | _, es, 0 => es
  | s, es, n + 1 =>
    let (e, s') := readDirRecord f s
    loadDir f s' (upsertEntry es e.name e) n

/-- `Package::Impl::Load`: clear the current state, open the file (the
in-memory model cannot fail to open, so `FileNotFound` does not arise),
check the signature, read the header, adopt the header's Encrypted /
ObfuscatedNames / ChecksumVerified bits into the live configuration, seek
to the directory and register metadata-only entries.  Header reads after
a failed one leave C++ locals uninitialised (undefined behaviour); the
model reads them as 0 — every theorem below supplies a complete header, so
this corner is never exercised.  After the signature check `Load` has no
failure exit: the per-record read results are discarded. -/
def loadPackage (st : PackState) (file : List Nat) : Except PakFail Unit × PackState :=
  let st1 := { st with entries := [], reader := some file }
  match readU32 file { pos := 0 } with
  | (Option.none, _) => (.error (PackageError.invalidSignature, "Invalid signature"), st1)
  | (some sig, s1) =>
    if sig ≠ SIGNATURE then
      (.error (PackageError.invalidSignature, "Invalid signature"), st1)
    else
      let (_, s2) := readU32 file s1
      let (countOpt, s3) := readU32 file s2
      let (flagsOpt, s4) := readU32 file s3
      let (dirOffOpt, s5) := readU32 file s4
      let count := countOpt.getD 0
      let flags := flagsOpt.getD 0
      let dirOff := dirOffOpt.getD 0
      let cfg' := { st.config with
        encryption :=
          if flags &&& 2 ≠ 0 then EncryptionMethod.xorMethod
          else EncryptionMethod.methodNone
        obfuscate_filenames := flags &&& 4 ≠ 0
        verify_checksums := flags &&& 8 ≠ 0 }
      let sDir := if s5.bad then s5 else { pos := dirOff, bad := false }
      (.ok (), { st1 with config := cfg', entries := loadDir file sDir [] count })

/-- The C6 counterexample file: a valid signature and 20-byte header,
`entry_count = 1`, `directory_offset = 20`, and a directory whose single
record declares `name_length = 8193 > 8192`. -/
def c6File : List Nat :=
  le32 SIGNATURE ++ le32 VERSION ++ le32 1 ++ le32 0 ++ le32 20 ++ le16 8193

/-- Files that agree from byte 8 on (they may differ in the version
field at bytes 4..8). -/
def agreeFrom8 (f1 f2 : List Nat) : Prop :=
  ∀ p, 8 ≤ p → List.drop p f1 = List.drop p f2

/-- A stream that will never again look at bytes 0..8: it is either
failed or positioned at or past byte 8. -/
def pastVersion (s : RStream) : Prop := s.bad = true ∨ 8 ≤ s.pos

/-! ## Basic facts about the primitives -/

theorem le32_length (v : Nat) : (le32 v).length = 4 := rfl

theorem le16val_le16 (v : Nat) : le16val (le16 v) = v % 65536 := by
  simp only [le16, le16val, List.getD, List.get?, Option.getD]
  omega

theorem le32val_le32 (v : Nat) : le32val (le32 v) = v % U32 := by
  simp only [le32, le32val, List.getD, List.get?, Option.getD, U32]
  omega

theorem xorKeystream_involutive (key : List Nat) (i : Nat) (data : List Nat) :
    xorKeystream key i (xorKeystream key i data) = data := by
  induction data generalizing i with
  | nil => rfl
  | cons b bs ih =>
    simp [xorKeystream, ih, Nat.xor_cancel_right]

theorem cipherEncrypt_involutive (key data : List Nat) :
    cipherEncrypt key (cipherEncrypt key data) = data := by
  unfold cipherEncrypt
  split
  · rfl
  · exact xorKeystream_involutive key 0 data

theorem xorKeystream_length (key : List Nat) (i : Nat) (data : List Nat) :
    (xorKeystream key i data).length = data.length := by
  induction data generalizing i with
  | nil => rfl
  | cons b bs ih => simp [xorKeystream, ih]

theorem cipherEncrypt_length (key data : List Nat) :
    (cipherEncrypt key data).length = data.length := by
  unfold cipherEncrypt
  split
  · rfl
  · exact xorKeystream_length key 0 data

theorem SecureCompare_self (a : Nat) : SecureCompare a a = true := by
  simp [SecureCompare]

/-! ## Claim C2 — the cache bound

`LRUCache::Put` removes records (duplicate-key erase and the eviction
loop) without ever subtracting their weight from `m_current_size`, so the
reported `Size()` is the total weight ever inserted and exceeds the
capacity after enough distinct insertions. -/

/-- C2: the cache-bound claim fails on the code.  With capacity 1024,
three `Put`s of weight 400 each (the cache-eviction scenario of the spec,
three entries in) drive `Size()` to 1200 > 1024: the eviction loop drops
records but `m_current_size` is never decreased, so the reported size
exceeds `max_cache_size`. -/
theorem C2_cache_size_exceeds_capacity :
    let c0 : LRU := { capacity := 1024 }
    let c3 := ((c0.put [97] [0] 400).put [98] [0] 400).put [99] [0] 400
    c3.size = 1200 ∧ 1024 < c3.size ∧
      c3.items = [([99], [0])] := by
  decide

/-! ## Claim C8 — cipher symmetry -/

/-- C8: for every user key string `k` and every byte sequence `x`,
decrypting the encryption of `x` under the key schedule derived from `k`
yields `x`, and encrypting the decryption likewise: the cipher is a
self-inverse XOR keystream. -/
theorem C8_cipher_symmetry (k x : List Nat) :
    cipherDecrypt (cipherKey k) (cipherEncrypt (cipherKey k) x) = x ∧
      cipherEncrypt (cipherKey k) (cipherDecrypt (cipherKey k) x) = x := by
  constructor
  · exact cipherEncrypt_involutive (cipherKey k) x
  · exact cipherEncrypt_involutive (cipherKey k) x

/-! ## Claim C5 — the sticky `last_error`

`m_last_error` is declared and read by `GetLastError`, but no path of the
decode pipeline (nor any other operation) ever stores to it. -/

/-- C5: `Get` — and with it every decode-pipeline failure it triggers —
leaves `last_error` exactly as it was; in particular a fresh package whose
`Get` fails still reports `PackageError::None`.  The claim that every
pipeline failure updates `last_error` is false of this source: no
operation writes `m_last_error`. -/
theorem C5_last_error_never_written (be : Codec) (st : PackState) (n : List Nat) :
    (getEntry be st n).2.last_error = st.last_error := by
  unfold getEntry
  repeat' split
  all_goals rfl

/-- C5, concrete failing input: a metadata-only entry over a back-end that
rejects its bytes (as zlib does on a corrupt stream).  `Get` returns no
value, yet `GetLastError` still reports `None` instead of
`DecompressionFailed`. -/
theorem C5_failing_input :
    let st : PackState :=
      { config := {}
        entries := [([97], { name := [97], stored_name := [97], offset := 0,
                             compressed_size := 1, uncompressed_size := 1,
                             crc32 := 0, is_encrypted := false, is_loaded := false })]
        reader := some [7]
        cache := { capacity := 1024 } }
    (getEntry failCodec st [97]).1 = Option.none ∧
      (getEntry failCodec st [97]).2.last_error = PackageError.noError := by
  decide

/-! ## Claim C4 — invalid configuration is never enforced

`PackageConfig::IsValid` flags `encryption ≠ None ∧ encryption_key = ""`,
but neither `Add` nor `Save` (nor the `Impl` constructor) consults it. -/

/-- C4: the claim fails on the code.  With encryption requested and an
empty key, `IsValid()` is `false`, yet `Add` succeeds and `Save` succeeds
(no cipher is created, so the data is written unencrypted): neither
operation fails with `InvalidParameter`. -/
theorem C4_invalid_config_not_rejected :
    let cfg : PackageConfig := { encryption := EncryptionMethod.xorMethod, encryption_key := [] }
    let st0 := initPackage cfg
    let addRes := addEntry st0 [97] [1, 2, 3]
    cfg.IsValid = false ∧
      addRes.1.isOk = true ∧
      (savePackage idCodec addRes.2).1.isOk = true := by
  decide

/-- C4 (amended): configurations with `encryption ≠ None` and an empty key
are exactly what `IsValid` rejects, but `Add` does not consult `IsValid`:
it succeeds for every non-empty name and data under such a configuration. -/
theorem C4_isvalid_false_yet_add_succeeds (cfg : PackageConfig)
    (name data : List Nat)
    (henc : cfg.encryption ≠ EncryptionMethod.methodNone)
    (hkey : cfg.encryption_key = [])
    (hn : name ≠ []) (hd : data ≠ []) :
    cfg.IsValid = false ∧ (addEntry (initPackage cfg) name data).1 = .ok () := by
  constructor
  · simp [PackageConfig.IsValid, hkey, List.isEmpty_iff]
    intro hc
    exact absurd hc henc
  · unfold addEntry
    rw [if_neg]
    intro hc
    rcases hc with hc | hc
    · exact hn hc
    · exact hd hc

/-- Witness for `C4_isvalid_false_yet_add_succeeds` at a concrete invalid
configuration, name and data. -/
theorem C4_witness :
    (PackageConfig.IsValid { encryption := EncryptionMethod.xorMethod, encryption_key := [] }
        = false) ∧
      (addEntry (initPackage { encryption := EncryptionMethod.xorMethod, encryption_key := [] })
          [97] [1]).1 = .ok () :=
  C4_isvalid_false_yet_add_succeeds
    { encryption := EncryptionMethod.xorMethod, encryption_key := [] }
    [97] [1] (by decide) rfl (by decide) (by decide)

/-! ## Claims C3 and C7 — decode-pipeline error kinds -/

theorem Decompress_never_decryptionFailed (be : Codec) (input : List Nat) (expected : Nat) :
    pipelineError (Decompress be input expected) ≠ PackageError.decryptionFailed := by
  unfold Decompress
  repeat' split
  all_goals simp [pipelineError]

theorem Decompress_oversize_invalidParameter (be : Codec) (input : List Nat) (expected : Nat)
    (h : GiB < expected) :
    Decompress be input expected
        = .error (PackageError.invalidParameter, "Empty compressed data") ∨
      Decompress be input expected = .error (PackageError.invalidParameter, "Invalid size") := by
  unfold Decompress
  by_cases hi : input = []
  · left
    rw [if_pos hi]
  · right
    rw [if_neg hi, if_pos (Or.inr h)]

/-- C3: the claim fails on the code.  An entry flagged `is_encrypted` in a
package with no cipher configured and checksum verification off decodes
successfully: `LoadEntry` silently skips the decryption step instead of
failing with `DecryptionFailed`, and hands back the (still-encrypted)
decompressed bytes. -/
theorem C3_encrypted_entry_without_cipher_returns_bytes :
    loadEntry idCodec { verify_checksums := false } Option.none (some [5, 6, 7])
        { name := [97], stored_name := [97], offset := 0, compressed_size := 3,
          uncompressed_size := 3, crc32 := 0, is_encrypted := true, is_loaded := false }
      = .ok [5, 6, 7] := rfl

/-- C3 (amended): when no cipher is configured the decode pipeline treats
an `is_encrypted` entry exactly like an unencrypted one (the decryption
step is skipped), and no run of the pipeline — with or without a cipher —
ever fails with `DecryptionFailed`: that error kind is produced nowhere. -/
theorem C3_no_cipher_skips_decryption (be : Codec) (cfg : PackageConfig)
    (reader : Option (List Nat)) (e : Entry) :
    loadEntry be cfg Option.none reader e
        = loadEntry be cfg Option.none reader { e with is_encrypted := false } ∧
      ∀ (cipher : Option (List Nat)),
        pipelineError (loadEntry be cfg cipher reader e) ≠ PackageError.decryptionFailed := by
  constructor
  · rfl
  · intro cipher
    unfold loadEntry
    cases reader with
    | none => simp [pipelineError]
    | some f =>
      dsimp only
      split
      · simp [pipelineError]
      · split
        · rename_i fl heq
          have := Decompress_never_decryptionFailed be ((f.drop e.offset).take e.compressed_size)
            e.uncompressed_size
          rw [heq] at this
          simpa [pipelineError] using this
        · repeat' split
          all_goals simp [pipelineError]

/-- C7: the claim fails on the code.  An entry declaring
`uncompressed_size = 2^30 + 1` ( > 1 GiB) is rejected by `Decompress`
with `InvalidParameter` — not with `CorruptedData` as the claim states. -/
theorem C7_oversize_entry_invalid_parameter :
    pipelineError
        (loadEntry idCodec {} Option.none (some [0])
          { name := [97], stored_name := [97], offset := 0, compressed_size := 1,
            uncompressed_size := 1073741825, crc32 := 0, is_encrypted := false,
            is_loaded := false })
        = PackageError.invalidParameter ∧
      PackageError.invalidParameter ≠ PackageError.corruptedData := by
  decide

/-- C7 (amended): for every entry whose declared `uncompressed_size`
exceeds 1 GiB the decode pipeline never returns bytes; the failure kind is
`IOError` when the raw payload read itself fails and `InvalidParameter`
otherwise (from `Decompress`'s hostile-size check) — never
`CorruptedData`. -/
theorem C7_oversize_never_returns_bytes (be : Codec) (cfg : PackageConfig)
    (cipher : Option (List Nat)) (reader : Option (List Nat)) (e : Entry)
    (h : GiB < e.uncompressed_size) :
    (loadEntry be cfg cipher reader e).isOk = false ∧
      (pipelineError (loadEntry be cfg cipher reader e) = PackageError.ioError ∨
        pipelineError (loadEntry be cfg cipher reader e) = PackageError.invalidParameter) := by
  unfold loadEntry
  cases reader with
  | none => exact ⟨rfl, Or.inl rfl⟩
  | some f =>
    dsimp only
    split
    · exact ⟨rfl, Or.inl rfl⟩
    · rcases Decompress_oversize_invalidParameter be
        ((f.drop e.offset).take e.compressed_size) e.uncompressed_size h with hd | hd
      · rw [hd]
        exact ⟨rfl, Or.inr rfl⟩
      · rw [hd]
        exact ⟨rfl, Or.inr rfl⟩

/-- Witness for `C7_oversize_never_returns_bytes` on a concrete oversize
entry. -/
theorem C7_witness :
    (loadEntry idCodec {} Option.none (some [0])
          { name := [97], stored_name := [97], offset := 0, compressed_size := 1,
            uncompressed_size := 1073741825, crc32 := 0, is_encrypted := false,
            is_loaded := false }).isOk = false ∧
      (pipelineError
          (loadEntry idCodec {} Option.none (some [0])
            { name := [97], stored_name := [97], offset := 0, compressed_size := 1,
              uncompressed_size := 1073741825, crc32 := 0, is_encrypted := false,
              is_loaded := false }) = PackageError.ioError ∨
        pipelineError
            (loadEntry idCodec {} Option.none (some [0])
              { name := [97], stored_name := [97], offset := 0, compressed_size := 1,
                uncompressed_size := 1073741825, crc32 := 0, is_encrypted := false,
                is_loaded := false }) = PackageError.invalidParameter) :=
  C7_oversize_never_returns_bytes idCodec {} Option.none (some [0])
    { name := [97], stored_name := [97], offset := 0, compressed_size := 1,
      uncompressed_size := 1073741825, crc32 := 0, is_encrypted := false,
      is_loaded := false } (by decide)

/-! ## Claim C9 — Remove and Clear leave the cache alone -/

theorem lookupEntry_eq_none_of_not_mem (es : List (List Nat × Entry)) (n : List Nat)
    (h : n ∉ es.map Prod.fst) : lookupEntry es n = Option.none := by
  induction es with
  | nil => rfl
  | cons p t ih =>
    rcases p with ⟨k, e⟩
    simp only [List.map_cons, List.mem_cons] at h
    push_neg at h
    have hk : k ≠ n := fun hkn => h.1 hkn.symm
    simp only [lookupEntry]
    rw [if_neg hk]
    exact ih h.2

theorem lookupEntry_eraseEntry_self (es : List (List Nat × Entry)) (n : List Nat)
    (hnodup : (es.map Prod.fst).Nodup) :
    lookupEntry (eraseEntry es n) n = Option.none := by
  induction es with
  | nil => rfl
  | cons p t ih =>
    rcases p with ⟨k, e⟩
    simp only [List.map_cons, List.nodup_cons] at hnodup
    by_cases hk : k = n
    · subst hk
      simp only [eraseEntry, if_pos rfl]
      exact lookupEntry_eq_none_of_not_mem t k hnodup.1
    · simp only [eraseEntry, if_neg hk, lookupEntry, if_neg hk]
      exact ih hnodup.2

/-- C9: `Remove` touches only the entry map (and `Clear` only the entry
map, file path and reader): the LRU cache is left unchanged.  Hence in a
package whose cache already holds the bytes `v` for `name` (as after a
prior lazy-load `Get`), a successful `Remove(name)` makes `Has(name)`
false, yet `Get(name)` still answers `v` from the cache, because `Get`
consults the cache before the entry map. -/
theorem C9_remove_leaves_cache (be : Codec) (st : PackState) (n v : List Nat)
    (hcache : (st.cache.get n).1 = some v)
    (hentry : (lookupEntry st.entries n).isSome = true)
    (hnodup : (st.entries.map Prod.fst).Nodup) :
    (removeEntry st n).1 = true ∧
      (removeEntry st n).2.cache = st.cache ∧
      (clearPackage st).cache = st.cache ∧
      hasEntry (removeEntry st n).2 n = false ∧
      (getEntry be (removeEntry st n).2 n).1 = some v := by
  refine ⟨hentry, rfl, rfl, ?_, ?_⟩
  · show (lookupEntry (eraseEntry st.entries n) n).isSome = false
    rw [lookupEntry_eraseEntry_self st.entries n hnodup]
    rfl
  · show (getEntry be (removeEntry st n).2 n).1 = some v
    unfold getEntry
    rcases hg : (removeEntry st n).2.cache.get n with ⟨o, c1⟩
    have hsame : (removeEntry st n).2.cache = st.cache := rfl
    rw [hsame] at hg
    rw [hg] at hcache
    simp only at hcache
    subst hcache
    rfl

/-- Witness for `C9_remove_leaves_cache` on a concrete one-entry package
whose cache holds the entry's bytes. -/
theorem C9_witness :
    let e : Entry := { name := [97], stored_name := [97], data := [1, 2], is_loaded := true }
    let st : PackState :=
      { config := {}, entries := [([97], e)], reader := Option.none,
        cache := { capacity := 1024, current := 2, items := [([97], [1, 2])] } }
    (removeEntry st [97]).1 = true ∧
      (removeEntry st [97]).2.cache = st.cache ∧
      (clearPackage st).cache = st.cache ∧
      hasEntry (removeEntry st [97]).2 [97] = false ∧
      (getEntry idCodec (removeEntry st [97]).2 [97]).1 = some [1, 2] :=
  C9_remove_leaves_cache idCodec _ [97] [1, 2] (by decide) (by decide) (by decide)

/-! ## Claim C6 — `Load` ignores directory read failures -/

/-- C6: the claim fails on the code.  `IOHelper::ReadString` does reject a
`name_length` above 8192, but `Load` discards that result (and every other
per-record read result): loading a file with a valid signature whose
directory record declares `name_length = 8193` returns **success**, with
one mis-parsed entry registered under the empty name — not a
`CorruptedData` failure. -/
theorem C6_oversized_name_load_succeeds :
    (loadPackage (initPackage {}) c6File).1.isOk = true ∧
      (loadPackage (initPackage {}) c6File).2.entries
        = [([], { name := [], stored_name := [], offset := 0, compressed_size := 0,
                  uncompressed_size := 0, crc32 := 0, is_encrypted := false,
                  is_loaded := false, data := [] })] := by
  decide

/-- C6 (amended): after the signature check `Load` has no failure exit at
all — for every prior state and every file whose first four bytes are the
signature, `Load` returns success (`CorruptedData` is never produced);
well-formedness of the directory, name lengths included, is not enforced. -/
theorem C6_load_succeeds_after_signature (st : PackState) (f : List Nat)
    (hsig : f.take 4 = le32 SIGNATURE) :
    (loadPackage st f).1 = .ok () := by
  unfold loadPackage
  have hread : readU32 f { pos := 0 } = (some SIGNATURE, { pos := 4, bad := false }) := by
    unfold readU32 readN
    simp only [List.drop_zero, hsig]
    decide
  rw [hread]
  dsimp only
  rw [if_neg (by simp)]

/-- Witness for `C6_load_succeeds_after_signature` on the concrete
counterexample file. -/
theorem C6_witness : (loadPackage (initPackage {}) c6File).1 = .ok () :=
  C6_load_succeeds_after_signature (initPackage {}) c6File (by decide)

/-! ## Claim C10 — the version field is never validated

`Load` reads the 32-bit version at bytes 4..8 into a local and never
looks at it.  Two files that differ only in those four bytes are parsed
identically: same result, same adopted configuration, same entries —
provided the directory region does not overlap the version field itself
(all parsing positions from the entry-count field on are ≥ 8). -/

theorem readN_congr (f1 f2 : List Nat) (n : Nat) (s : RStream)
    (hagree : agreeFrom8 f1 f2) (hs : pastVersion s) :
    readN f1 n s = readN f2 n s ∧ pastVersion (readN f1 n s).2 := by
  obtain ⟨pos, bad⟩ := s
  cases bad with
  | true => exact ⟨rfl, Or.inl rfl⟩
  | false =>
    have hp : 8 ≤ pos := by
      rcases hs with h | h
      · exact absurd h (by simp)
      · exact h
    have hred : ∀ (g : List Nat), readN g n ⟨pos, false⟩ =
        if ((g.drop pos).take n).length < n then (Option.none, ⟨pos, true⟩)
        else (some ((g.drop pos).take n), ⟨pos + n, false⟩) := fun g => rfl
    rw [hred f1, hred f2, hagree pos hp]
    refine ⟨rfl, ?_⟩
    by_cases hl : ((f2.drop pos).take n).length < n
    · rw [if_pos hl]
      exact Or.inl rfl
    · rw [if_neg hl]
      refine Or.inr ?_
      show 8 ≤ pos + n
      omega

theorem readU32_snd (f : List Nat) (s : RStream) : (readU32 f s).2 = (readN f 4 s).2 := by
  unfold readU32
  rcases readN f 4 s with ⟨o, s'⟩
  cases o <;> rfl

theorem readU16_snd (f : List Nat) (s : RStream) : (readU16 f s).2 = (readN f 2 s).2 := by
  unfold readU16
  rcases readN f 2 s with ⟨o, s'⟩
  cases o <;> rfl

theorem readU8_snd (f : List Nat) (s : RStream) : (readU8 f s).2 = (readN f 1 s).2 := by
  unfold readU8
  rcases readN f 1 s with ⟨o, s'⟩
  cases o <;> rfl

theorem readU32_congr (f1 f2 : List Nat) (s : RStream)
    (hagree : agreeFrom8 f1 f2) (hs : pastVersion s) :
    readU32 f1 s = readU32 f2 s ∧ pastVersion (readU32 f1 s).2 := by
  obtain ⟨heq, hinv⟩ := readN_congr f1 f2 4 s hagree hs
  constructor
  · unfold readU32
    rw [heq]
  · rw [readU32_snd]
    exact hinv

theorem readU16_congr (f1 f2 : List Nat) (s : RStream)
    (hagree : agreeFrom8 f1 f2) (hs : pastVersion s) :
    readU16 f1 s = readU16 f2 s ∧ pastVersion (readU16 f1 s).2 := by
  obtain ⟨heq, hinv⟩ := readN_congr f1 f2 2 s hagree hs
  constructor
  · unfold readU16
    rw [heq]
  · rw [readU16_snd]
    exact hinv

theorem readU8_congr (f1 f2 : List Nat) (s : RStream)
    (hagree : agreeFrom8 f1 f2) (hs : pastVersion s) :
    readU8 f1 s = readU8 f2 s ∧ pastVersion (readU8 f1 s).2 := by
  obtain ⟨heq, hinv⟩ := readN_congr f1 f2 1 s hagree hs
  constructor
  · unfold readU8
    rw [heq]
  · rw [readU8_snd]
    exact hinv

theorem readString_congr (f1 f2 : List Nat) (s : RStream)
    (hagree : agreeFrom8 f1 f2) (hs : pastVersion s) :
    readString f1 s = readString f2 s ∧ pastVersion (readString f1 s).2 := by
  obtain ⟨heq16, hinv16⟩ := readU16_congr f1 f2 s hagree hs
  unfold readString
  rw [heq16]
  rw [heq16] at hinv16
  rcases h16 : readU16 f2 s with ⟨lenOpt, s1⟩
  rw [h16] at hinv16
  dsimp only at hinv16 ⊢
  cases lenOpt with
  | none => exact ⟨rfl, hinv16⟩
  | some len =>
    dsimp only
    by_cases hlen : len > 8192
    · rw [if_pos hlen, if_pos hlen]
      exact ⟨rfl, hinv16⟩
    · rw [if_neg hlen, if_neg hlen]
      exact readN_congr f1 f2 len s1 hagree hinv16

theorem readDirRecord_congr (f1 f2 : List Nat) (s : RStream)
    (hagree : agreeFrom8 f1 f2) (hs : pastVersion s) :
    readDirRecord f1 s = readDirRecord f2 s ∧ pastVersion (readDirRecord f1 s).2 := by
  unfold readDirRecord
  obtain ⟨he0, hi0⟩ := readString_congr f1 f2 s hagree hs
  rw [he0] at hi0 ⊢
  rcases h0 : readString f2 s with ⟨nameOpt, s1⟩
  rw [h0] at hi0
  dsimp only at hi0 ⊢
  obtain ⟨he1, hi1⟩ := readU32_congr f1 f2 s1 hagree hi0
  rw [he1] at hi1 ⊢
  rcases hr1 : readU32 f2 s1 with ⟨offOpt, s2⟩
  rw [hr1] at hi1
  dsimp only at hi1 ⊢
  obtain ⟨he2, hi2⟩ := readU32_congr f1 f2 s2 hagree hi1
  rw [he2] at hi2 ⊢
  rcases hr2 : readU32 f2 s2 with ⟨csizeOpt, s3⟩
  rw [hr2] at hi2
  dsimp only at hi2 ⊢
  obtain ⟨he3, hi3⟩ := readU32_congr f1 f2 s3 hagree hi2
  rw [he3] at hi3 ⊢
  rcases hr3 : readU32 f2 s3 with ⟨usizeOpt, s4⟩
  rw [hr3] at hi3
  dsimp only at hi3 ⊢
  obtain ⟨he4, hi4⟩ := readU32_congr f1 f2 s4 hagree hi3
  rw [he4] at hi4 ⊢
  rcases hr4 : readU32 f2 s4 with ⟨crcOpt, s5⟩
  rw [hr4] at hi4
  dsimp only at hi4 ⊢
  obtain ⟨he5, hi5⟩ := readU8_congr f1 f2 s5 hagree hi4
  rw [he5] at hi5 ⊢
  rcases hr5 : readU8 f2 s5 with ⟨encOpt, s6⟩
  rw [hr5] at hi5
  dsimp only at hi5 ⊢
  exact ⟨rfl, hi5⟩

theorem loadDir_congr (f1 f2 : List Nat) (hagree : agreeFrom8 f1 f2) :
    ∀ (count : Nat) (s : RStream) (es : List (List Nat × Entry)),
      pastVersion s → loadDir f1 s es count = loadDir f2 s es count := by
  intro count
  induction count with
  | zero => intro s es _; rfl
  | succ n ih =>
    intro s es hs
    unfold loadDir
    obtain ⟨heq, hinv⟩ := readDirRecord_congr f1 f2 s hagree hs
    rw [heq] at hinv ⊢
    rcases hr : readDirRecord f2 s with ⟨e, s'⟩
    rw [hr] at hinv
    dsimp only at hinv ⊢
    exact ih s' (upsertEntry es e.name e) hinv

theorem readU32_exact (f : List Nat) (p : Nat) (bs : List Nat)
    (hb : (f.drop p).take 4 = bs) (hlen : bs.length = 4) :
    readU32 f { pos := p } = (some (le32val bs), { pos := p + 4, bad := false }) := by
  unfold readU32 readN
  dsimp only
  rw [hb]
  have hnot : ¬bs.length < 4 := by omega
  rw [if_neg hnot]
  rfl

theorem drop_sig_ver (v rest : List Nat) (hv : v.length = 4) (p : Nat) (hp : 8 ≤ p) :
    (le32 SIGNATURE ++ v ++ rest).drop p = rest.drop (p - 8) := by
  rw [List.append_assoc]
  have e1 : (le32 SIGNATURE ++ (v ++ rest)).drop p = (v ++ rest).drop (p - 4) := by
    conv_lhs =>
      rw [(by rw [le32_length]; omega : p = (le32 SIGNATURE).length + (p - 4))]
    rw [List.drop_append]
  have e2 : (v ++ rest).drop (p - 4) = rest.drop (p - 8) := by
    conv_lhs =>
      rw [(by rw [hv]; omega : p - 4 = v.length + (p - 8))]
    rw [List.drop_append]
  rw [e1, e2]

/-- `Load` of a file `le32 SIGNATURE ++ v ++ rest` with a complete 20-byte
header: the signature check passes, the version word `v` is read and
discarded, and the entry count, flags and directory offset come from
`rest` alone. -/
theorem loadPackage_header (st : PackState) (v rest : List Nat) (hv : v.length = 4)
    (hlen : 12 ≤ rest.length) :
    loadPackage st (le32 SIGNATURE ++ v ++ rest)
      = (.ok (),
          { config := { st.config with
              encryption :=
                if le32val ((rest.drop 4).take 4) &&& 2 ≠ 0 then EncryptionMethod.xorMethod
                else EncryptionMethod.methodNone
              obfuscate_filenames := le32val ((rest.drop 4).take 4) &&& 4 ≠ 0
              verify_checksums := le32val ((rest.drop 4).take 4) &&& 8 ≠ 0 }
            entries := loadDir (le32 SIGNATURE ++ v ++ rest)
              { pos := le32val ((rest.drop 8).take 4), bad := false } []
              (le32val (rest.take 4))
            reader := some (le32 SIGNATURE ++ v ++ rest)
            cipher := st.cipher
            cache := st.cache
            last_error := st.last_error }) := by
  have hr0 : readU32 (le32 SIGNATURE ++ v ++ rest) { pos := 0 }
      = (some SIGNATURE, { pos := 4, bad := false }) := by
    have := readU32_exact (le32 SIGNATURE ++ v ++ rest) 0 (le32 SIGNATURE)
      (by rw [List.drop_zero, List.append_assoc, List.take_left' (le32_length _)]) (le32_length _)
    rw [this]
    norm_num [le32val_le32, SIGNATURE, U32]
  have hr4 : readU32 (le32 SIGNATURE ++ v ++ rest) { pos := 4 }
      = (some (le32val v), { pos := 8, bad := false }) := by
    refine readU32_exact _ 4 v ?_ hv
    rw [List.append_assoc, List.drop_left' (le32_length _), List.take_left' hv]
  have hr8 : readU32 (le32 SIGNATURE ++ v ++ rest) { pos := 8 }
      = (some (le32val (rest.take 4)), { pos := 12, bad := false }) := by
    refine readU32_exact _ 8 (rest.take 4) ?_ ?_
    · rw [drop_sig_ver v rest hv 8 (by omega)]
      simp
    · rw [List.length_take]
      omega
  have hr12 : readU32 (le32 SIGNATURE ++ v ++ rest) { pos := 12 }
      = (some (le32val ((rest.drop 4).take 4)), { pos := 16, bad := false }) := by
    refine readU32_exact _ 12 ((rest.drop 4).take 4) ?_ ?_
    · rw [drop_sig_ver v rest hv 12 (by omega)]
    · rw [List.length_take, List.length_drop]
      omega
  have hr16 : readU32 (le32 SIGNATURE ++ v ++ rest) { pos := 16 }
      = (some (le32val ((rest.drop 8).take 4)), { pos := 20, bad := false }) := by
    refine readU32_exact _ 16 ((rest.drop 8).take 4) ?_ ?_
    · rw [drop_sig_ver v rest hv 16 (by omega)]
    · rw [List.length_take, List.length_drop]
      omega
  unfold loadPackage
  rw [hr0]
  dsimp only
  rw [if_neg (by simp)]
  rw [hr4]
  dsimp only
  rw [hr8]
  dsimp only
  rw [hr12]
  dsimp only
  rw [hr16]
  rfl

/-- C10: `Load` never examines the version field.  For every pair of
32-bit version words `v1`, `v2` and every header-plus-directory tail
`rest` (complete header, directory offset past the version field), the
two files `SIG ∥ v1 ∥ rest` and `SIG ∥ v2 ∥ rest` are both accepted
(`Load` succeeds — any version value, 0 included), and `Load` proceeds
identically: the adopted configuration and the registered entries are
the same. -/
theorem C10_version_field_ignored (st : PackState) (v1 v2 rest : List Nat)
    (h1 : v1.length = 4) (h2 : v2.length = 4)
    (hlen : 12 ≤ rest.length)
    (hdir : 8 ≤ le32val ((rest.drop 8).take 4)) :
    (loadPackage st (le32 SIGNATURE ++ v1 ++ rest)).1 = .ok () ∧
      (loadPackage st (le32 SIGNATURE ++ v2 ++ rest)).1 = .ok () ∧
      (loadPackage st (le32 SIGNATURE ++ v1 ++ rest)).2.config
        = (loadPackage st (le32 SIGNATURE ++ v2 ++ rest)).2.config ∧
      (loadPackage st (le32 SIGNATURE ++ v1 ++ rest)).2.entries
        = (loadPackage st (le32 SIGNATURE ++ v2 ++ rest)).2.entries := by
  have hagree : agreeFrom8 (le32 SIGNATURE ++ v1 ++ rest) (le32 SIGNATURE ++ v2 ++ rest) := by
    intro p hp
    rw [drop_sig_ver v1 rest h1 p hp, drop_sig_ver v2 rest h2 p hp]
  rw [loadPackage_header st v1 rest h1 hlen, loadPackage_header st v2 rest h2 hlen]
  refine ⟨rfl, rfl, rfl, ?_⟩
  dsimp only
  exact loadDir_congr _ _ hagree (le32val (rest.take 4))
    { pos := le32val ((rest.drop 8).take 4), bad := false } [] (Or.inr hdir)

/-- C10, boundary counterexample: "Load proceeds identically regardless of
the version value" fails as literally stated when the (attacker-chosen)
`directory_offset` points *into* the header at byte 4, because the
directory parse then re-reads the version bytes as a directory record.
Two files identical except for the version word — both accepted — produce
different entry maps.  (The amended claim adds the proviso
`directory_offset ≥ 8`; the acceptance part needs no proviso.) -/
theorem C10_overlap_counterexample :
    (loadPackage (initPackage {})
        (le32 SIGNATURE ++ [0, 0, 0, 0] ++ (le32 1 ++ le32 0 ++ le32 4))).1.isOk = true ∧
      (loadPackage (initPackage {})
          (le32 SIGNATURE ++ [5, 0, 0, 0] ++ (le32 1 ++ le32 0 ++ le32 4))).1.isOk = true ∧
      (loadPackage (initPackage {})
            (le32 SIGNATURE ++ [0, 0, 0, 0] ++ (le32 1 ++ le32 0 ++ le32 4))).2.entries
        ≠ (loadPackage (initPackage {})
            (le32 SIGNATURE ++ [5, 0, 0, 0] ++ (le32 1 ++ le32 0 ++ le32 4))).2.entries := by
  decide

/-- Witness for `C10_version_field_ignored`: version 0 and version
`0x01020304` on an empty-directory file are both accepted and loaded to
the same state. -/
theorem C10_witness :
    (loadPackage (initPackage {}) (le32 SIGNATURE ++ le32 0 ++ (le32 0 ++ le32 0 ++ le32 20))).1
        = .ok () ∧
      (loadPackage (initPackage {})
          (le32 SIGNATURE ++ [4, 3, 2, 1] ++ (le32 0 ++ le32 0 ++ le32 20))).1 = .ok () ∧
      (loadPackage (initPackage {})
            (le32 SIGNATURE ++ le32 0 ++ (le32 0 ++ le32 0 ++ le32 20))).2.config
        = (loadPackage (initPackage {})
            (le32 SIGNATURE ++ [4, 3, 2, 1] ++ (le32 0 ++ le32 0 ++ le32 20))).2.config ∧
      (loadPackage (initPackage {})
            (le32 SIGNATURE ++ le32 0 ++ (le32 0 ++ le32 0 ++ le32 20))).2.entries
        = (loadPackage (initPackage {})
            (le32 SIGNATURE ++ [4, 3, 2, 1] ++ (le32 0 ++ le32 0 ++ le32 20))).2.entries :=
  C10_version_field_ignored (initPackage {}) (le32 0) [4, 3, 2, 1]
    (le32 0 ++ le32 0 ++ le32 20) (by decide) (by decide) (by decide) (by decide)

/-! ## Claim C1 — the Save → Load → Get round-trip

Supporting lemmas: bounds on the CRC and flag words, exact-read lemmas
for the serialized layout, and step computations for `Add`, `Save`,
`Load` and `Get` on a single-entry package. -/

theorem processedData_length (cipher : Option (List Nat)) (enc : Bool) (data : List Nat) :
    (processedData cipher enc data).length = data.length := by
  unfold processedData
  cases cipher with
  | none => rfl
  | some key =>
    dsimp only
    split
    · exact cipherEncrypt_length key data
    · rfl

theorem crcBit_lt {c : Nat} (h : c < 2 ^ 32) : crcBit c < 2 ^ 32 := by
  have hd : c / 2 < 2 ^ 32 := lt_of_le_of_lt (Nat.div_le_self c 2) h
  unfold crcBit
  split
  · exact Nat.xor_lt_two_pow hd (by norm_num)
  · exact hd

theorem crcByte_lt (c b : Nat) (h : c < 2 ^ 32) : crcByte c b < 2 ^ 32 := by
  unfold crcByte
  apply crcBit_lt
  apply crcBit_lt
  apply crcBit_lt
  apply crcBit_lt
  apply crcBit_lt
  apply crcBit_lt
  apply crcBit_lt
  apply crcBit_lt
  exact Nat.xor_lt_two_pow h (by omega)

theorem CalculateCRC32_lt (data : List Nat) : CalculateCRC32 data < U32 := by
  have hU : U32 = 2 ^ 32 := by norm_num [U32]
  rw [hU]
  unfold CalculateCRC32
  refine Nat.xor_lt_two_pow ?_ (by norm_num)
  have hfold : ∀ (l : List Nat) (acc : Nat), acc < 2 ^ 32 → l.foldl crcByte acc < 2 ^ 32 := by
    intro l
    induction l with
    | nil => intro acc h; simpa using h
    | cons b t ih =>
      intro acc h
      rw [List.foldl_cons]
      exact ih (crcByte acc b) (crcByte_lt acc b h)
  exact hfold data 0xFFFFFFFF (by norm_num)

theorem flagBits_and2 (a b c d : Bool) : (flagBits a b c d &&& 2 ≠ 0) ↔ b = true := by
  cases a <;> cases b <;> cases c <;> cases d <;> decide

theorem flagBits_and4 (a b c d : Bool) : (flagBits a b c d &&& 4 ≠ 0) ↔ c = true := by
  cases a <;> cases b <;> cases c <;> cases d <;> decide

theorem flagBits_and8 (a b c d : Bool) : (flagBits a b c d &&& 8 ≠ 0) ↔ d = true := by
  cases a <;> cases b <;> cases c <;> cases d <;> decide

theorem flagBits_lt (a b c d : Bool) : flagBits a b c d < U32 := by
  cases a <;> cases b <;> cases c <;> cases d <;> decide

theorem readN_exact (f : List Nat) (p n : Nat) (bs : List Nat)
    (hb : (f.drop p).take n = bs) (hlen : bs.length = n) :
    readN f n { pos := p } = (some bs, { pos := p + n, bad := false }) := by
  unfold readN
  dsimp only
  rw [hb]
  have hnot : ¬bs.length < n := by omega
  rw [if_neg hnot]
  rfl

theorem readU16_exact (f : List Nat) (p : Nat) (bs : List Nat)
    (hb : (f.drop p).take 2 = bs) (hlen : bs.length = 2) :
    readU16 f { pos := p } = (some (le16val bs), { pos := p + 2, bad := false }) := by
  unfold readU16
  rw [readN_exact f p 2 bs hb hlen]

theorem readU8_exact (f : List Nat) (p : Nat) (b : Nat)
    (hb : (f.drop p).take 1 = [b]) :
    readU8 f { pos := p } = (some b, { pos := p + 1, bad := false }) := by
  unfold readU8
  rw [readN_exact f p 1 [b] hb rfl]
  rfl

theorem drop_chunk (f : List Nat) (p n : Nat) (xs rest : List Nat)
    (hdp : f.drop p = xs ++ rest) (hn : xs.length = n) :
    (f.drop p).take n = xs ∧ f.drop (p + n) = rest := by
  subst hn
  refine ⟨by rw [hdp, List.take_left], ?_⟩
  have h1 : f.drop (p + xs.length) = (f.drop p).drop xs.length := by
    rw [List.drop_drop, Nat.add_comm]
  rw [h1, hdp, List.drop_left]

/-- Parsing one directory record laid out at position `p` of the file:
every field is recovered exactly (16-bit length-prefixed name, four
little-endian 32-bit fields, one flag byte). -/
theorem readDirRecord_exact (f : List Nat) (p : Nat) (sn : List Nat)
    (off csize usize crc : Nat) (encB : Bool) (tail : List Nat)
    (hdp : f.drop p = le16 sn.length ++ sn ++ le32 off ++ le32 csize ++ le32 usize
      ++ le32 crc ++ [if encB then 1 else 0] ++ tail)
    (hsn : sn.length ≤ 8192)
    (hoff : off < U32) (hcs : csize < U32) (hus : usize < U32) (hcrc : crc < U32) :
    readDirRecord f { pos := p }
      = ({ name := sn, stored_name := sn, offset := off, compressed_size := csize,
           uncompressed_size := usize, crc32 := crc, is_encrypted := encB,
           is_loaded := false, data := [] },
         { pos := p + 2 + sn.length + 4 + 4 + 4 + 4 + 1, bad := false }) := by
  simp only [List.append_assoc] at hdp
  obtain ⟨ht0, hd0⟩ := drop_chunk f p 2 (le16 sn.length) _ hdp rfl
  obtain ⟨ht1, hd1⟩ := drop_chunk f (p + 2) sn.length sn _ hd0 rfl
  obtain ⟨ht2, hd2⟩ := drop_chunk f (p + 2 + sn.length) 4 (le32 off) _ hd1 (le32_length off)
  obtain ⟨ht3, hd3⟩ := drop_chunk f (p + 2 + sn.length + 4) 4 (le32 csize) _ hd2
    (le32_length csize)
  obtain ⟨ht4, hd4⟩ := drop_chunk f (p + 2 + sn.length + 4 + 4) 4 (le32 usize) _ hd3
    (le32_length usize)
  obtain ⟨ht5, hd5⟩ := drop_chunk f (p + 2 + sn.length + 4 + 4 + 4) 4 (le32 crc) _ hd4
    (le32_length crc)
  obtain ⟨ht6, hd6⟩ := drop_chunk f (p + 2 + sn.length + 4 + 4 + 4 + 4) 1
    [if encB then 1 else 0] _ hd5 rfl
  have hstr : readString f { pos := p }
      = (some sn, { pos := p + 2 + sn.length, bad := false }) := by
    unfold readString
    rw [readU16_exact f p (le16 sn.length) ht0 rfl]
    dsimp only
    rw [le16val_le16, Nat.mod_eq_of_lt (by omega)]
    rw [if_neg (by omega)]
    exact readN_exact f (p + 2) sn.length sn ht1 rfl
  have hu2 : readU32 f { pos := p + 2 + sn.length }
      = (some off, { pos := p + 2 + sn.length + 4, bad := false }) := by
    rw [readU32_exact f (p + 2 + sn.length) (le32 off) ht2 (le32_length off),
      le32val_le32, Nat.mod_eq_of_lt hoff]
  have hu3 : readU32 f { pos := p + 2 + sn.length + 4 }
      = (some csize, { pos := p + 2 + sn.length + 4 + 4, bad := false }) := by
    rw [readU32_exact f (p + 2 + sn.length + 4) (le32 csize) ht3 (le32_length csize),
      le32val_le32, Nat.mod_eq_of_lt hcs]
  have hu4 : readU32 f { pos := p + 2 + sn.length + 4 + 4 }
      = (some usize, { pos := p + 2 + sn.length + 4 + 4 + 4, bad := false }) := by
    rw [readU32_exact f (p + 2 + sn.length + 4 + 4) (le32 usize) ht4 (le32_length usize),
      le32val_le32, Nat.mod_eq_of_lt hus]
  have hu5 : readU32 f { pos := p + 2 + sn.length + 4 + 4 + 4 }
      = (some crc, { pos := p + 2 + sn.length + 4 + 4 + 4 + 4, bad := false }) := by
    rw [readU32_exact f (p + 2 + sn.length + 4 + 4 + 4) (le32 crc) ht5 (le32_length crc),
      le32val_le32, Nat.mod_eq_of_lt hcrc]
  have hu6 : readU8 f { pos := p + 2 + sn.length + 4 + 4 + 4 + 4 }
      = (some (if encB then 1 else 0),
          { pos := p + 2 + sn.length + 4 + 4 + 4 + 4 + 1, bad := false }) :=
    readU8_exact f (p + 2 + sn.length + 4 + 4 + 4 + 4) (if encB then 1 else 0) ht6
  unfold readDirRecord
  rw [hstr]
  dsimp only
  rw [hu2]
  dsimp only
  rw [hu3]
  dsimp only
  rw [hu4]
  dsimp only
  rw [hu5]
  dsimp only
  rw [hu6]
  dsimp only [Option.getD_some]
  have henc : (decide ¬(if encB then (1 : Nat) else 0) = 0) = encB := by
    cases encB <;> rfl
  congr 1
  simp only [henc]

/-- `Save` of a single-entry package: the file is header, payload, then
the one-record directory, with the entry's offset (20) and compressed
size recorded in the entry map. -/
theorem savePackage_single (be : Codec) (st : PackState) (n : List Nat) (e : Entry)
    (c : List Nat)
    (hent : st.entries = [(n, e)])
    (hlevel : st.config.compression ≠ CompressionLevel.levelNone)
    (hdata : e.data ≠ [])
    (hc : be.comp (processedData st.cipher e.is_encrypted e.data) = some c) :
    savePackage be st
      = (.ok (le32 SIGNATURE ++ le32 VERSION ++ le32 (u32 1) ++ le32 (flagsOf st.config)
              ++ le32 (u32 (20 + c.length)) ++ c
              ++ dirRecord { e with offset := u32 20, compressed_size := u32 c.length }),
          { st with
              entries := [(n, { e with offset := u32 20, compressed_size := u32 c.length })] }) := by
  have hproc : processedData st.cipher e.is_encrypted e.data ≠ [] := by
    intro h
    apply hdata
    have hl := processedData_length st.cipher e.is_encrypted e.data
    rw [h] at hl
    exact List.length_eq_zero.mp hl.symm
  have hcomp : Compress be (processedData st.cipher e.is_encrypted e.data)
      st.config.compression = .ok c := by
    unfold Compress
    rw [if_neg hproc, if_neg hlevel, hc]
  have hpay : savePayloads be st.cipher st.config.compression 20 [(n, e)]
      = .ok (c ++ [], [(n, { e with offset := u32 20, compressed_size := u32 c.length })]) := by
    simp only [savePayloads]
    rw [hcomp]
  unfold savePackage
  rw [hent, hpay]
  dsimp only
  simp only [dirBytes, List.map_cons, List.map_nil, List.flatten_cons, List.flatten_nil,
    List.append_nil, List.length_cons, List.length_nil, List.length_append]

/-- `Load` of a single-entry container as produced by `Save`: the header
flags are adopted into the configuration and the one directory record is
registered, metadata-only, under its stored name. -/
theorem loadPackage_saved (st : PackState) (flagsW : Nat) (c : List Nat)
    (sn : List Nat) (off csize usize crc : Nat) (encB : Bool)
    (hflags : flagsW < U32)
    (hc20 : 20 + c.length < U32)
    (hsn8 : sn.length ≤ 8192)
    (hoff : off < U32) (hcs : csize < U32) (hus : usize < U32) (hcrc : crc < U32) :
    loadPackage st
        (le32 SIGNATURE ++ le32 VERSION ++ le32 (u32 1) ++ le32 flagsW
          ++ le32 (u32 (20 + c.length)) ++ c
          ++ (writeString sn ++ le32 off ++ le32 csize ++ le32 usize ++ le32 crc
              ++ [if encB then 1 else 0]))
      = (.ok (),
          { config := { st.config with
              encryption :=
                if flagsW &&& 2 ≠ 0 then EncryptionMethod.xorMethod
                else EncryptionMethod.methodNone
              obfuscate_filenames := flagsW &&& 4 ≠ 0
              verify_checksums := flagsW &&& 8 ≠ 0 }
            entries := [(sn,
              { name := sn, stored_name := sn, offset := off, compressed_size := csize,
                uncompressed_size := usize, crc32 := crc, is_encrypted := encB,
                is_loaded := false, data := [] })]
            reader := some (le32 SIGNATURE ++ le32 VERSION ++ le32 (u32 1) ++ le32 flagsW
              ++ le32 (u32 (20 + c.length)) ++ c
              ++ (writeString sn ++ le32 off ++ le32 csize ++ le32 usize ++ le32 crc
                  ++ [if encB then 1 else 0]))
            cipher := st.cipher
            cache := st.cache
            last_error := st.last_error }) := by
  have hws : writeString sn = le16 sn.length ++ sn := by
    unfold writeString
    rw [if_neg (by omega)]
  have hshape : le32 SIGNATURE ++ le32 VERSION ++ le32 (u32 1) ++ le32 flagsW
        ++ le32 (u32 (20 + c.length)) ++ c
        ++ (writeString sn ++ le32 off ++ le32 csize ++ le32 usize ++ le32 crc
            ++ [if encB then 1 else 0])
      = le32 SIGNATURE ++ le32 VERSION
        ++ (le32 (u32 1) ++ le32 flagsW ++ le32 (u32 (20 + c.length)) ++ c
            ++ (writeString sn ++ le32 off ++ le32 csize ++ le32 usize ++ le32 crc
                ++ [if encB then 1 else 0])) := by
    simp only [List.append_assoc]
  rw [hshape]
  set R := le32 (u32 1) ++ le32 flagsW ++ le32 (u32 (20 + c.length)) ++ c
      ++ (writeString sn ++ le32 off ++ le32 csize ++ le32 usize ++ le32 crc
          ++ [if encB then 1 else 0]) with hR
  have hRassoc : R = le32 (u32 1) ++ (le32 flagsW ++ (le32 (u32 (20 + c.length))
      ++ (c ++ (writeString sn ++ le32 off ++ le32 csize ++ le32 usize ++ le32 crc
          ++ [if encB then 1 else 0])))) := by
    rw [hR]
    simp only [List.append_assoc]
  have hRlen : 12 ≤ R.length := by
    rw [hR]
    simp [le32, writeString]
  obtain ⟨hRt0, hRd0⟩ := drop_chunk R 0 4 (le32 (u32 1)) _ (by simpa using hRassoc)
    (le32_length _)
  obtain ⟨hRt1, hRd1⟩ := drop_chunk R 4 4 (le32 flagsW) _ (by simpa using hRd0)
    (le32_length _)
  obtain ⟨hRt2, hRd2⟩ := drop_chunk R 8 4 (le32 (u32 (20 + c.length))) _ hRd1
    (le32_length _)
  have hcount : le32val (R.take 4) = 1 := by
    have : R.take 4 = (R.drop 0).take 4 := by rw [List.drop_zero]
    rw [this, hRt0, le32val_le32]
    decide
  have hflagsv : le32val ((R.drop 4).take 4) = flagsW := by
    rw [hRt1, le32val_le32]
    exact Nat.mod_eq_of_lt hflags
  have hc20n : 20 + c.length < 4294967296 := by
    have := hc20
    unfold U32 at this
    omega
  have hdirv : le32val ((R.drop 8).take 4) = 20 + c.length := by
    rw [hRt2, le32val_le32]
    unfold u32 U32
    omega
  have e8 : (le32 SIGNATURE ++ le32 VERSION ++ R).drop 8 = R := by
    have h8 : (le32 SIGNATURE ++ le32 VERSION).length = 8 := rfl
    exact List.drop_left' h8
  have hFdrop : (le32 SIGNATURE ++ le32 VERSION ++ R).drop (20 + c.length)
      = le16 sn.length ++ sn ++ le32 off ++ le32 csize ++ le32 usize ++ le32 crc
        ++ [if encB then 1 else 0] ++ [] := by
    have hsplit : 20 + c.length = 8 + (12 + c.length) := by omega
    rw [hsplit, ← List.drop_drop, e8]
    have hpre : R.drop (12 + c.length)
        = writeString sn ++ le32 off ++ le32 csize ++ le32 usize ++ le32 crc
          ++ [if encB then 1 else 0] := by
      rw [hR]
      have hplen : (le32 (u32 1) ++ le32 flagsW ++ le32 (u32 (20 + c.length)) ++ c).length
          = 12 + c.length := by
        simp [le32]
        omega
      exact List.drop_left' hplen
    rw [hpre, hws]
    simp only [List.append_assoc, List.append_nil]
  have hrec := readDirRecord_exact (le32 SIGNATURE ++ le32 VERSION ++ R) (20 + c.length)
    sn off csize usize crc encB [] hFdrop hsn8 hoff hcs hus hcrc
  have hload1 : loadDir (le32 SIGNATURE ++ le32 VERSION ++ R)
      { pos := 20 + c.length, bad := false } [] 1
      = [(sn, { name := sn, stored_name := sn, offset := off, compressed_size := csize,
                uncompressed_size := usize, crc32 := crc, is_encrypted := encB,
                is_loaded := false, data := [] })] := by
    unfold loadDir
    rw [hrec]
    rfl
  rw [loadPackage_header st (le32 VERSION) R rfl hRlen, hcount, hflagsv, hdirv, hload1]

/-- The decode pipeline on an entry whose payload region of the file holds
`c`, where the back-end decompresses `c` to the processed bytes `P` and
undoing the optional encryption of `P` gives back `B` with the entry's
stored CRC: `LoadEntry` returns exactly `B`. -/
theorem loadEntry_decodes (be : Codec) (cfg : PackageConfig) (cipher : Option (List Nat))
    (f : List Nat) (e : Entry) (B P c : List Nat)
    (hslice : (f.drop e.offset).take e.compressed_size = c)
    (hclen : c.length = e.compressed_size)
    (hcne : c ≠ [])
    (hus : e.uncompressed_size = B.length)
    (hB0 : B ≠ []) (hBg : B.length ≤ GiB)
    (hdec : be.decomp c B.length = some P)
    (hP : (match cipher with
           | some key => if e.is_encrypted then cipherDecrypt key P else P
           | Option.none => P) = B)
    (hcrc : e.crc32 = CalculateCRC32 B) :
    loadEntry be cfg cipher (some f) e = .ok B := by
  unfold loadEntry
  dsimp only
  rw [hslice]
  rw [if_neg (by omega)]
  have hDec : Decompress be c e.uncompressed_size = .ok P := by
    unfold Decompress
    rw [if_neg hcne, hus]
    have hno : ¬(B.length = 0 ∨ B.length > GiB) := by
      push_neg
      exact ⟨fun hz => hB0 (List.length_eq_zero.mp hz), by omega⟩
    rw [if_neg hno, hdec]
  rw [hDec]
  dsimp only
  rw [hP, hcrc]
  have hv : ¬(cfg.verify_checksums = true
      ∧ ¬SecureCompare (CalculateCRC32 B) (CalculateCRC32 B) = true) := by
    simp [SecureCompare_self]
  rw [if_neg hv]

/-- `Get` on a package whose cache is empty and whose entry map holds one
metadata-only entry that the pipeline decodes to `B`: the bytes come back. -/
theorem getEntry_loaded_single (be : Codec) (st : PackState) (n : List Nat) (e : Entry)
    (B : List Nat)
    (hcache : st.cache.items = [])
    (hent : st.entries = [(n, e)])
    (hload : e.is_loaded = false)
    (hpipe : loadEntry be st.config st.cipher st.reader e = .ok B) :
    (getEntry be st n).1 = some B := by
  unfold getEntry
  have hcg : st.cache.get n = (Option.none, st.cache) := by
    unfold LRU.get
    rw [hcache]
    rfl
  rw [hcg]
  dsimp only
  have hle : lookupEntry [(n, e)] n = some e := by
    unfold lookupEntry
    rw [if_pos rfl]
  rw [hent, hle]
  dsimp only
  rw [hload]
  rw [if_neg (by simp), hpipe]

theorem u32_lt (x : Nat) : u32 x < U32 :=
  Nat.mod_lt x (by decide)

/-- Undoing the optional encryption step of `Get` on the bytes `Save` fed
to the compressor recovers the original plaintext, whichever of the three
cipher situations (no encryption, encryption requested with empty key,
encryption with a real key) the configuration is in. -/
theorem processedData_decode (cfg : PackageConfig) (B : List Nat) :
    (match (initPackage cfg).cipher with
     | some key =>
        if (decide (cfg.encryption ≠ EncryptionMethod.methodNone) : Bool) then
          cipherDecrypt key (processedData (initPackage cfg).cipher
            (decide (cfg.encryption ≠ EncryptionMethod.methodNone)) B)
        else processedData (initPackage cfg).cipher
          (decide (cfg.encryption ≠ EncryptionMethod.methodNone)) B
     | Option.none => processedData (initPackage cfg).cipher
        (decide (cfg.encryption ≠ EncryptionMethod.methodNone)) B) = B := by
  by_cases hcc : cfg.encryption ≠ EncryptionMethod.methodNone ∧ cfg.encryption_key ≠ []
  · have hcipS : (initPackage cfg).cipher = some (cipherKey cfg.encryption_key) := by
      unfold initPackage
      dsimp only
      rw [if_pos hcc]
    have hencT : decide (cfg.encryption ≠ EncryptionMethod.methodNone) = true :=
      decide_eq_true hcc.1
    rw [hcipS, hencT]
    dsimp only
    exact cipherEncrypt_involutive (cipherKey cfg.encryption_key) B
  · have hcipN : (initPackage cfg).cipher = Option.none := by
      unfold initPackage
      dsimp only
      rw [if_neg hcc]
    rw [hcipN]
    rfl

/-- C1: the round-trip claim fails on the code when filename obfuscation
is on.  With `obfuscate_filenames = true`, `Save` writes the directory
under `rbp_<murmur3>.dat`; `Load` adopts that stored name as the logical
name (it cannot invert the hash), so `Get` of the original name `"a"`
finds neither a cache record nor an entry and returns nothing — even
though Add, Save and Load all succeeded with the same configuration. -/
theorem C1_obfuscation_breaks_roundtrip :
    let cfg : PackageConfig :=
      { compression := CompressionLevel.fast, obfuscate_filenames := true }
    let sv := savePackage idCodec (addEntry (initPackage cfg) [97] [1, 2, 3]).2
    let file := sv.1.toOption.getD []
    sv.1.isOk = true ∧
      (loadPackage (initPackage cfg) file).1.isOk = true ∧
      (getEntry idCodec (loadPackage (initPackage cfg) file).2 [97]).1 = Option.none := by
  decide

/-- C1 (amended): for every configuration with `obfuscate_filenames` off
and a compression level other than `None`, every valid name (non-empty,
at most 8192 bytes) and every non-empty `B` of at most 1 GiB, provided
the DEFLATE back-end round-trips the processed bytes (`compress2`
produces some non-empty `c` of at most 1 GiB and `uncompress` inverts
it), the pipeline Add → Save → Load (same configuration/key, fresh
package) → Get returns bytes equal to `B`. -/
theorem C1_roundtrip_amended (be : Codec) (cfg : PackageConfig) (n B c : List Nat)
    (hobf : cfg.obfuscate_filenames = false)
    (hlevel : cfg.compression ≠ CompressionLevel.levelNone)
    (hn : n ≠ []) (hn8 : n.length ≤ 8192)
    (hB : B ≠ []) (hBg : B.length ≤ GiB)
    (hcomp : be.comp (processedData (initPackage cfg).cipher
      (decide (cfg.encryption ≠ EncryptionMethod.methodNone)) B) = some c)
    (hcne : c ≠ []) (hcg : c.length ≤ GiB)
    (hdec : be.decomp c B.length
      = some (processedData (initPackage cfg).cipher
          (decide (cfg.encryption ≠ EncryptionMethod.methodNone)) B)) :
    ∃ file,
      (savePackage be (addEntry (initPackage cfg) n B).2).1 = .ok file ∧
        (loadPackage (initPackage cfg) file).1 = .ok () ∧
        (getEntry be (loadPackage (initPackage cfg) file).2 n).1 = some B := by
  have hGiBlt : GiB < U32 := by decide
  have hBlt : B.length < U32 := by omega
  have hclt : c.length < U32 := by omega
  have hc20 : 20 + c.length < U32 := by
    have : U32 = 4294967296 := rfl
    have hg : GiB = 1073741824 := rfl
    omega
  have hu20 : u32 20 = 20 := by decide
  have hucl : u32 c.length = c.length := Nat.mod_eq_of_lt hclt
  have hubl : u32 B.length = B.length := Nat.mod_eq_of_lt hBlt
  -- Step 1: Add
  have hadd : (addEntry (initPackage cfg) n B).2
      = { config := cfg
          entries := [(n, { name := n, stored_name := n, offset := 0, compressed_size := 0,
                            uncompressed_size := u32 B.length, crc32 := CalculateCRC32 B,
                            is_encrypted := decide (cfg.encryption ≠ EncryptionMethod.methodNone),
                            is_loaded := true, data := B })]
          reader := Option.none
          cipher := if cfg.encryption ≠ EncryptionMethod.methodNone
              ∧ cfg.encryption_key ≠ [] then some (cipherKey cfg.encryption_key)
            else Option.none
          cache := { capacity := cfg.max_cache_size }
          last_error := PackageError.noError } := by
    unfold addEntry
    rw [if_neg (by simp [hn, hB])]
    dsimp only [initPackage]
    rw [hobf]
    rfl
  -- Step 2: Save produces the container bytes
  have hsave : savePackage be (addEntry (initPackage cfg) n B).2
      = (.ok (le32 SIGNATURE ++ le32 VERSION ++ le32 (u32 1) ++ le32 (flagsOf cfg)
            ++ le32 (u32 (20 + c.length)) ++ c
            ++ (writeString n ++ le32 (u32 20) ++ le32 (u32 c.length) ++ le32 (u32 B.length)
                ++ le32 (CalculateCRC32 B)
                ++ [if decide (cfg.encryption ≠ EncryptionMethod.methodNone) then 1 else 0])),
          { config := cfg
            entries := [(n, { name := n, stored_name := n, offset := u32 20,
                              compressed_size := u32 c.length,
                              uncompressed_size := u32 B.length, crc32 := CalculateCRC32 B,
                              is_encrypted :=
                                decide (cfg.encryption ≠ EncryptionMethod.methodNone),
                              is_loaded := true, data := B })]
            reader := Option.none
            cipher := if cfg.encryption ≠ EncryptionMethod.methodNone
                ∧ cfg.encryption_key ≠ [] then some (cipherKey cfg.encryption_key)
              else Option.none
            cache := { capacity := cfg.max_cache_size }
            last_error := PackageError.noError }) := by
    rw [hadd]
    exact savePackage_single be _ n
      { name := n, stored_name := n, offset := 0, compressed_size := 0,
        uncompressed_size := u32 B.length, crc32 := CalculateCRC32 B,
        is_encrypted := decide (cfg.encryption ≠ EncryptionMethod.methodNone),
        is_loaded := true, data := B } c rfl hlevel hB hcomp
  refine ⟨_, by rw [hsave], ?_, ?_⟩
  -- Step 3: Load of the saved bytes into a fresh package with the same config
  case _ =>
    rw [loadPackage_saved (initPackage cfg) (flagsOf cfg) c n (u32 20) (u32 c.length)
      (u32 B.length) (CalculateCRC32 B) (decide (cfg.encryption ≠ EncryptionMethod.methodNone))
      (flagBits_lt _ _ _ _) hc20 hn8 (u32_lt 20) (u32_lt c.length) (u32_lt B.length)
      (CalculateCRC32_lt B)]
  case _ =>
    rw [loadPackage_saved (initPackage cfg) (flagsOf cfg) c n (u32 20) (u32 c.length)
      (u32 B.length) (CalculateCRC32 B) (decide (cfg.encryption ≠ EncryptionMethod.methodNone))
      (flagBits_lt _ _ _ _) hc20 hn8 (u32_lt 20) (u32_lt c.length) (u32_lt B.length)
      (CalculateCRC32_lt B)]
    -- Step 4: Get decodes the lazily-loaded entry back to B
    apply getEntry_loaded_single be _ n _ B rfl rfl rfl
    -- the decode pipeline
    have hF20 : (le32 SIGNATURE ++ le32 VERSION ++ le32 (u32 1) ++ le32 (flagsOf cfg)
          ++ le32 (u32 (20 + c.length)) ++ c
          ++ (writeString n ++ le32 20 ++ le32 c.length ++ le32 (u32 B.length)
              ++ le32 (CalculateCRC32 B)
              ++ [if decide (cfg.encryption ≠ EncryptionMethod.methodNone) then 1
                  else 0])).drop 20
        = c ++ (writeString n ++ le32 20 ++ le32 c.length ++ le32 (u32 B.length)
            ++ le32 (CalculateCRC32 B)
            ++ [if decide (cfg.encryption ≠ EncryptionMethod.methodNone) then 1 else 0]) := by
      have hgrp : le32 SIGNATURE ++ le32 VERSION ++ le32 (u32 1) ++ le32 (flagsOf cfg)
            ++ le32 (u32 (20 + c.length)) ++ c
            ++ (writeString n ++ le32 20 ++ le32 c.length ++ le32 (u32 B.length)
                ++ le32 (CalculateCRC32 B)
                ++ [if decide (cfg.encryption ≠ EncryptionMethod.methodNone) then 1 else 0])
          = (le32 SIGNATURE ++ le32 VERSION ++ le32 (u32 1) ++ le32 (flagsOf cfg)
              ++ le32 (u32 (20 + c.length)))
            ++ (c ++ (writeString n ++ le32 20 ++ le32 c.length
                ++ le32 (u32 B.length) ++ le32 (CalculateCRC32 B)
                ++ [if decide (cfg.encryption ≠ EncryptionMethod.methodNone) then 1
                    else 0])) := by
        simp only [List.append_assoc]
      rw [hgrp]
      exact List.drop_left' (by simp [le32])
    apply loadEntry_decodes be _ _ _ _ B
      (processedData (initPackage cfg).cipher
        (decide (cfg.encryption ≠ EncryptionMethod.methodNone)) B) c
    -- the payload slice
    · show (List.take (u32 c.length) (List.drop (u32 20) _)) = c
      rw [hu20, hucl, hF20]
      exact List.take_left c _
    · exact hucl.symm
    · exact hcne
    · exact hubl
    · exact hB
    · exact hBg
    · exact hdec
    · -- undoing the optional encryption recovers B
      exact processedData_decode cfg B
    · rfl

/-- Witness for `C1_roundtrip_amended`: the store-verbatim back-end, fast
compression, no encryption, name `"a"` and bytes `[1, 2, 3]`. -/
theorem C1_witness :
    ∃ file,
      (savePackage idCodec (addEntry (initPackage { compression := CompressionLevel.fast })
          [97] [1, 2, 3]).2).1 = .ok file ∧
        (loadPackage (initPackage { compression := CompressionLevel.fast }) file).1
          = .ok () ∧
        (getEntry idCodec
            (loadPackage (initPackage { compression := CompressionLevel.fast }) file).2
            [97]).1 = some [1, 2, 3] :=
  C1_roundtrip_amended idCodec { compression := CompressionLevel.fast } [97] [1, 2, 3]
    [1, 2, 3] rfl (by decide) (by decide) (by decide) (by decide) (by decide) (by decide)
    (by decide) (by decide) (by decide)

end RBPak
